import Mathlib

/-!
Verification of the style command layer of the fluent-wysiwyg-editor
repository (a draft-js based WYSIWYG editor component).

The document model (blocks of styled characters, a selection, link
entities) follows the data model of the specification; the command
functions `applyInlineStyle`, `applyBlockStyle`, `adjustIndent` and
`addLink` live in the repository's `Helper` module whose source is not
part of the provided tree, so they are modelled from the specification
(each such definition carries a doc comment saying so).  The event
handlers (`handleKeyCommand`, `handleReturn`, the content-update effect,
the initial-state computation and the active-style derivation effect)
are translated directly from `TextEditor.tsx`.
-/

namespace Wysiwyg

/-- A link entity `{url, linkText}` attached to a character range. -/
structure LinkEntity where
  url : String
  linkText : String
deriving DecidableEq, Repr

/-- One character of a block together with the set of inline styles
covering it and the (optional) entity attached to it.  The spec stores
styles as character ranges; per-character style sets are the equivalent
pointwise view of the same data. -/
structure CharInfo where
  ch : Char
  styles : List String
  entity : Option LinkEntity
deriving DecidableEq, Repr

/-- A content block: unique key, block type (a draft-js type string such
as `"unstyled"`, `"header-one"`, `"unordered-list-item"`, ...), styled
text and list depth. -/
structure Block where
  key : String
  type : String
  chars : List CharInfo
  depth : Nat
deriving DecidableEq, Repr

/-- The selection: anchor block key + offset and focus block key +
offset, as in draft-js `SelectionState`. -/
structure SelectionState where
  anchorKey : String
  anchorOffset : Nat
  focusKey : String
  focusOffset : Nat
deriving DecidableEq, Repr

/-- The editor state: the ordered block list plus the current
selection.  The undo/redo history is owned by the external library and
is not consulted by any of the verified commands, so it is omitted. -/
structure EditorState where
  blocks : List Block
  selection : SelectionState
deriving DecidableEq, Repr

/-- Map over a list with the index of each element, starting at `n`. -/
def mapWithIdx (f : Nat → α → β) : Nat → List α → List β
  | _, [] => []
  | n, a :: as => f n a :: mapWithIdx f (n + 1) as

/-- Ordered selection range over block indices: start block index, start
offset, end block index, end offset; `none` when a selection key does
not occur in the block list. -/
def selRangeAux (keys : List String) (sel : SelectionState) : Option (Nat × Nat × Nat × Nat) :=
  match keys.findIdx? (fun k => k == sel.anchorKey), keys.findIdx? (fun k => k == sel.focusKey) with
  | some a, some f =>
    if a < f then some (a, sel.anchorOffset, f, sel.focusOffset)
    else if f < a then some (f, sel.focusOffset, a, sel.anchorOffset)
    else some (a, min sel.anchorOffset sel.focusOffset, a, max sel.anchorOffset sel.focusOffset)
  | _, _ => none

/-- The ordered selection range of an editor state. -/
def selRange (s : EditorState) : Option (Nat × Nat × Nat × Nat) :=
  selRangeAux (s.blocks.map Block.key) s.selection

/-- Whether the character at block index `i`, offset `j` lies inside the
current selection. -/
def charSelected (s : EditorState) (i j : Nat) : Bool :=
  match selRange s with
  | none => false
  | some (si, so, ei, eo) =>
    if i < si || ei < i then false
    else if si == ei then decide (so ≤ j) && decide (j < eo)
    else if i == si then decide (so ≤ j)
    else if i == ei then decide (j < eo)
    else true

/-- Whether the block at index `i` is intersected by the selection. -/
def blockSelected (s : EditorState) (i : Nat) : Bool :=
  match selRange s with
  | none => false
  | some (si, _, ei, _) => decide (si ≤ i) && decide (i ≤ ei)

/-- A collapsed (empty) selection: anchor and focus coincide. -/
def isCollapsed (sel : SelectionState) : Bool :=
  sel.anchorKey == sel.focusKey && sel.anchorOffset == sel.focusOffset

/-- The character at block index `i`, offset `j`, when it exists. -/
def charAt (s : EditorState) (i j : Nat) : Option CharInfo :=
  (s.blocks[i]?).bind (fun b => b.chars[j]?)

/-- Whether the character at `(i, j)` exists and carries inline style `X`. -/
def hasStyleAt (s : EditorState) (X : String) (i j : Nat) : Bool :=
  match charAt s i j with
  | some c => decide (X ∈ c.styles)
  | none => false

/-- Rewrite every selected character with `f`, leaving the rest of the
state unchanged. -/
def mapSelectedChars (s : EditorState) (f : CharInfo → CharInfo) : EditorState :=
  { s with blocks := mapWithIdx (fun i b =>
      { b with chars := mapWithIdx (fun j c => if charSelected s i j then f c else c) 0 b.chars }) 0 s.blocks }

/-- `X` covers the entire selection: every selected, existing character
carries it. -/
def SelCovered (s : EditorState) (X : String) : Prop :=
  ∀ i j c, charSelected s i j = true → charAt s i j = some c → X ∈ c.styles

/-- `X` is absent from the entire selection. -/
def SelUncovered (s : EditorState) (X : String) : Prop :=
  ∀ i j c, charSelected s i j = true → charAt s i j = some c → X ∉ c.styles

/-- Executable test that the whole selection already carries style `X`. -/
def selectionFullyStyled (s : EditorState) (X : String) : Bool :=
  (mapWithIdx (fun i b =>
    (mapWithIdx (fun j c => !charSelected s i j || decide (X ∈ c.styles)) 0 b.chars).all id)
    0 s.blocks).all id

/-- Remove style `X` from one character. -/
def removeStyleChar (X : String) (c : CharInfo) : CharInfo :=
  { c with styles := c.styles.filter (fun y => y != X) }

/-- Add style `X` to one character (duplicate free). -/
def addStyleChar (X : String) (c : CharInfo) : CharInfo :=
  { c with styles := if X ∈ c.styles then c.styles else X :: c.styles }

/-- Modelled from the spec: `applyInlineStyle(state, style)` of the
repository's `Helper` module (that module's source is not in the
provided tree).  Per the spec it toggles `style` over the current
selection: if the entire selection already carries `style` it is removed
from the selection, otherwise it is added to the selection, other styles
and entities being preserved; a collapsed selection is a no-op. -/
def applyInlineStyle (s : EditorState) (X : String) : EditorState :=
  if isCollapsed s.selection then s
  else if selectionFullyStyled s X then mapSelectedChars s (removeStyleChar X)
  else mapSelectedChars s (addStyleChar X)

/-- The heading block types, which never toggle off. -/
def isHeadingType (t : String) : Bool :=
  t == "header-one" || t == "header-two" || t == "header-three"

/-- The two list-item block types. -/
def isListType (t : String) : Bool :=
  t == "unordered-list-item" || t == "ordered-list-item"

/-- The maximum allowed indent level for lists (`TextEditor.tsx`). -/
def maxIntend : Nat := 4

/-- Modelled from the spec: the type transition of `applyBlockStyle` —
a block that already has the requested type is reset to `paragraph`
(toggle), except for heading types which never toggle off. -/
def newBlockType (requested cur : String) : String :=
  if cur == requested && !isHeadingType requested then "paragraph" else requested

/-- Modelled from the spec: the per-block change performed by
`applyBlockStyle` of the `Helper` module (source not in the provided
tree): the `newBlockType` transition, and switching a non-list block to
a list type resets its depth to 0. -/
def setBlockType (requested : String) (b : Block) : Block :=
  { b with
    type := newBlockType requested b.type
    depth := if isListType (newBlockType requested b.type) && !isListType b.type then 0 else b.depth }

/-- Rewrite every block intersected by the selection with `f`. -/
def mapSelectedBlocks (s : EditorState) (f : Block → Block) : EditorState :=
  { s with blocks := mapWithIdx (fun i b => if blockSelected s i then f b else b) 0 s.blocks }

/-- Modelled from the spec: `applyBlockStyle(state, blockType)` of the
`Helper` module (source not in the provided tree) — sets the block type
of every block intersected by the selection, with the toggle rule of
`setBlockType`. -/
def applyBlockStyle (s : EditorState) (t : String) : EditorState :=
  mapSelectedBlocks s (setBlockType t)

/-- The two indent adjustment directions. -/
inductive IndentDirection
  | increase
  | decrease
deriving DecidableEq, Repr

/-- Modelled from the spec: the per-block depth change performed by
`adjustIndent` — list items move one level, a no-op at the `[0,
maxIntend]` boundaries and on non-list blocks. -/
def adjustBlockDepth (d : IndentDirection) (b : Block) : Block :=
  if isListType b.type then
    match d with
    | .increase => if b.depth < maxIntend then { b with depth := b.depth + 1 } else b
    | .decrease => if 0 < b.depth then { b with depth := b.depth - 1 } else b
  else b

/-- Modelled from the spec: `adjustIndent(state, direction)` — the
indent command dispatched through `RichUtils.onTab` with the source's
`maxIntend` bound, applied to the blocks intersected by the selection. -/
def adjustIndent (s : EditorState) (d : IndentDirection) : EditorState :=
  mapSelectedBlocks s (adjustBlockDepth d)

/-- The characters currently selected, in document order. -/
def selectedText (s : EditorState) : List Char :=
  (mapWithIdx (fun i b =>
    (mapWithIdx (fun j c => if charSelected s i j then [c.ch] else []) 0 b.chars).flatten)
    0 s.blocks).flatten

/-- Modelled from the spec: `addLink(state, url)` of the `Helper` module
(source not in the provided tree) — a no-op when `url` is empty,
otherwise wraps the current selection in a link entity carrying the url
and the selected text, replacing prior entities in the range. -/
def addLink (s : EditorState) (url : String) : EditorState :=
  if url == "" then s
  else mapSelectedChars s (fun c =>
    { c with entity := some { url := url, linkText := String.mk (selectedText s) } })

/-- The four inline style names of the data model. -/
def inlineStyleNames : List String := ["BOLD", "ITALIC", "UNDERLINE", "STRIKETHROUGH"]

/-- Modelled from the spec: draft-js `getCurrentInlineStyle`, per the
spec's contract for the active-style query — the inline styles covering
every character of the current selection. -/
def getCurrentInlineStyle (s : EditorState) : List String :=
  inlineStyleNames.filter (fun X => selectionFullyStyled s X)

/-- draft-js `getBlockForKey`: the block with the given key. -/
def getBlockForKey (s : EditorState) (k : String) : Option Block :=
  s.blocks.find? (fun b => b.key == k)

/-- The boolean activity flags plus the heading dropdown key computed by
the active-style effect of `TextEditor.tsx`. -/
structure StyleFlags where
  isBoldActive : Bool
  isItalicActive : Bool
  isUnderlineActive : Bool
  isStrikeThroughActive : Bool
  isUnorderedListActive : Bool
  isOrderedListActive : Bool
  isBlockquoteActive : Bool
  isCodeBlockActive : Bool
  selectedHeading : String
deriving DecidableEq, Repr

/-- The type of the block containing the selection's anchor point.
draft-js guarantees the anchor block exists; a missing key is embedded
as the default type `"unstyled"`. -/
def anchorBlockType (s : EditorState) : String :=
  match getBlockForKey s s.selection.anchorKey with
  | some b => b.type
  | none => "unstyled"

/-- The active-style derivation effect of `TextEditor.tsx` (the
`useEffect` reacting to editor state changes): inline flags from the
current inline style, block flags by equality against the anchor
block's type, and the heading key with `"unstyled"` mapped to
`"paragraph"`. -/
def deriveStyleFlags (s : EditorState) : StyleFlags :=
  let currentInlineStyle := getCurrentInlineStyle s
  let currentBlockType := anchorBlockType s
  { isBoldActive := decide ("BOLD" ∈ currentInlineStyle)
    isItalicActive := decide ("ITALIC" ∈ currentInlineStyle)
    isUnderlineActive := decide ("UNDERLINE" ∈ currentInlineStyle)
    isStrikeThroughActive := decide ("STRIKETHROUGH" ∈ currentInlineStyle)
    isUnorderedListActive := currentBlockType == "unordered-list-item"
    isOrderedListActive := currentBlockType == "ordered-list-item"
    isBlockquoteActive := currentBlockType == "blockquote"
    isCodeBlockActive := currentBlockType == "code-block"
    selectedHeading := if currentBlockType == "unstyled" then "paragraph" else currentBlockType }

/-- The draft-js handled / not-handled result of an event handler. -/
inductive DraftHandleValue
  | handled
  | notHandled
deriving DecidableEq, Repr

/-- `handleKeyCommand` from `TextEditor.tsx`: a `"backspace"` command is
answered `not-handled` outright; any other command is delegated to
`RichUtils.handleKeyCommand` (the abstract `richUtilsHandleKeyCommand`
argument), whose result, when present, is installed via
`setEditorState`.  The returned pair is the handle value together with
the state passed to `setEditorState`, if any. -/
def handleKeyCommand (richUtilsHandleKeyCommand : EditorState → String → Option EditorState)
    (command : String) (editorState : EditorState) : DraftHandleValue × Option EditorState :=
  if command == "backspace" then (DraftHandleValue.notHandled, none)
  else
    match richUtilsHandleKeyCommand editorState command with
    | some newState => (DraftHandleValue.handled, some newState)
    | none => (DraftHandleValue.notHandled, none)

/-- A return-key keyboard event (only the field consulted by
`handleReturn`). -/
structure ReturnKeyEvent where
  shiftKey : Bool
deriving DecidableEq, Repr

/-- The soft line-break character inserted by `insertSoftNewline`. -/
def softBreakChar : CharInfo := { ch := '\n', styles := [], entity := none }

/-- Modelled from the spec: draft-js `RichUtils.insertSoftNewline` —
inserts a literal line-break character within the current (anchor)
block at the anchor offset, creating no new block. -/
def insertSoftNewline (s : EditorState) : EditorState :=
  { s with blocks := s.blocks.map (fun b =>
      if b.key == s.selection.anchorKey then
        { b with chars := b.chars.take s.selection.anchorOffset
            ++ softBreakChar :: b.chars.drop s.selection.anchorOffset }
      else b) }

/-- `handleReturn` from `TextEditor.tsx`: with the shift key held the
soft newline is inserted and the event reported handled; otherwise the
event is reported not handled (block splitting is left to draft-js). -/
def handleReturn (event : ReturnKeyEvent) (editorState : EditorState) :
    DraftHandleValue × Option EditorState :=
  if event.shiftKey then (DraftHandleValue.handled, some (insertSoftNewline editorState))
  else (DraftHandleValue.notHandled, none)

/-- The two content types of the editor component. -/
inductive ContentType
  | markdown
  | html
deriving DecidableEq, BEq, Repr

/-- The content-update effect of `TextEditor.tsx` (the `useEffect`
calling `props.handleContentUpdate`): the list of callback invocations
(each element one invocation argument) performed on one editor state
change. -/
def contentUpdateEffect
    (exportEditorStateToMarkdownString exportEditorStateToHtmlString : EditorState → String)
    (contentType : ContentType) (editorState : EditorState) : List String :=
  let newContent :=
    if contentType = ContentType.markdown then exportEditorStateToMarkdownString editorState
    else if contentType = ContentType.html then exportEditorStateToHtmlString editorState
    else ""
  [newContent]

/-- JS truthiness of the optional initial content string. -/
def strTruthy : Option String → Bool
  | none => false
  | some s => !(s == "")

/-- The initial editor state computation of `TextEditor.tsx` (the
`useState` initializer): import from markdown or html only when the
initial content is truthy (present and non-empty) and of the matching
content type, otherwise `EditorState.createEmpty()` (the abstract
`createEmpty` argument). -/
def initialEditorState
    (getEditorStateFromMarkdown getEditorStateFromHtml : String → EditorState)
    (createEmpty : EditorState)
    (initialContent : Option String) (contentType : ContentType) : EditorState :=
  if strTruthy initialContent = true ∧ contentType = ContentType.markdown then
    getEditorStateFromMarkdown (initialContent.getD "")
  else if strTruthy initialContent = true ∧ contentType = ContentType.html then
    getEditorStateFromHtml (initialContent.getD "")
  else createEmpty

/-- A plain unstyled character. -/
def charPlain (c : Char) : CharInfo := { ch := c, styles := [], entity := none }

/-- A bold character. -/
def charBold (c : Char) : CharInfo := { ch := c, styles := ["BOLD"], entity := none }

/-- Example: one block "ab" where only the first character is bold,
fully selected. -/
def exPartialBold : EditorState :=
  { blocks := [{ key := "k", type := "unstyled",
                 chars := [charBold 'a', charPlain 'b'], depth := 0 }],
    selection := { anchorKey := "k", anchorOffset := 0, focusKey := "k", focusOffset := 2 } }

/-- Example: one block "ab" fully bold, fully selected. -/
def exAllBold : EditorState :=
  { blocks := [{ key := "k", type := "unstyled",
                 chars := [charBold 'a', charBold 'b'], depth := 0 }],
    selection := { anchorKey := "k", anchorOffset := 0, focusKey := "k", focusOffset := 2 } }

/-- Example block: a single-character unordered list item at depth 0. -/
def exListBlock : Block :=
  { key := "k", type := "unordered-list-item", chars := [charPlain 'a'], depth := 0 }

/-- Example: a single fully selected unordered list item block. -/
def exListItem : EditorState :=
  { blocks := [exListBlock],
    selection := { anchorKey := "k", anchorOffset := 0, focusKey := "k", focusOffset := 1 } }

/-- Example: a single fully selected list item at depth two. -/
def exDepthTwo : EditorState :=
  { blocks := [{ key := "k", type := "unordered-list-item",
                 chars := [charPlain 'a'], depth := 2 }],
    selection := { anchorKey := "k", anchorOffset := 0, focusKey := "k", focusOffset := 1 } }

/-- The list item of `exDepthTwo` after two indent decreases. -/
def exDepthZeroBlock : Block :=
  { key := "k", type := "unordered-list-item", chars := [charPlain 'a'], depth := 0 }

/-- An empty editor state. -/
def emptyEditorState : EditorState :=
  { blocks := [],
    selection := { anchorKey := "", anchorOffset := 0, focusKey := "", focusOffset := 0 } }

/-- A stub markdown importer used to instantiate the abstract import
function in witnesses. -/
def stubImportMd (c : String) : EditorState :=
  { blocks := [{ key := c, type := "md", chars := [], depth := 0 }],
    selection := { anchorKey := c, anchorOffset := 0, focusKey := c, focusOffset := 0 } }

/-- A stub html importer used to instantiate the abstract import
function in witnesses. -/
def stubImportHtml (c : String) : EditorState :=
  { blocks := [{ key := c, type := "html", chars := [], depth := 0 }],
    selection := { anchorKey := c, anchorOffset := 0, focusKey := c, focusOffset := 0 } }

theorem mapWithIdx_length (f : Nat → α → β) (n : Nat) (l : List α) :
    (mapWithIdx f n l).length = l.length := by
  induction l generalizing n with
  | nil => rfl
  | cons a as ih => simp [mapWithIdx, ih]

theorem mapWithIdx_getElem? (f : Nat → α → β) (n : Nat) (l : List α) (i : Nat) :
    (mapWithIdx f n l)[i]? = (l[i]?).map (f (n + i)) := by
  induction l generalizing n i with
  | nil => simp [mapWithIdx]
  | cons a as ih =>
    cases i with
    | zero => simp [mapWithIdx]
    | succ j =>
      simp only [mapWithIdx, List.getElem?_cons_succ, ih (n + 1) j]
      have h : n + 1 + j = n + (j + 1) := by omega
      rw [h]

theorem mapWithIdx_map_eq (f : Nat → α → α) (g : α → β) (n : Nat) (l : List α)
    (h : ∀ i a, g (f i a) = g a) :
    (mapWithIdx f n l).map g = l.map g := by
  induction l generalizing n with
  | nil => rfl
  | cons a as ih => simp [mapWithIdx, h, ih]

theorem mapWithIdx_all_eq_true (f : Nat → α → Bool) (n : Nat) (l : List α) :
    (mapWithIdx f n l).all id = true ↔
      ∀ i a, l[i]? = some a → f (n + i) a = true := by
  induction l generalizing n with
  | nil => simp [mapWithIdx]
  | cons a as ih =>
    simp only [mapWithIdx, List.all_cons, Bool.and_eq_true, id, ih (n + 1)]
    constructor
    · rintro ⟨h0, hs⟩ i b hb
      cases i with
      | zero =>
        simp only [List.getElem?_cons_zero, Option.some_inj] at hb
        rw [hb] at h0; simpa using h0
      | succ j =>
        simp only [List.getElem?_cons_succ] at hb
        have := hs j b hb
        have harith : n + 1 + j = n + (j + 1) := by omega
        rwa [harith] at this
    · intro h
      refine ⟨?_, ?_⟩
      · have := h 0 a (by simp)
        simpa using this
      · intro j b hb
        have := h (j + 1) b (by simpa using hb)
        have harith : n + (j + 1) = n + 1 + j := by omega
        rwa [harith] at this

theorem mapWithIdx_mem (f : Nat → α → β) (n : Nat) (l : List α) (b : β)
    (hb : b ∈ mapWithIdx f n l) : ∃ i a, a ∈ l ∧ b = f i a := by
  induction l generalizing n with
  | nil => simp [mapWithIdx] at hb
  | cons a as ih =>
    simp only [mapWithIdx, List.mem_cons] at hb
    rcases hb with h | h
    · exact ⟨n, a, List.mem_cons_self a as, h⟩
    · rcases ih (n + 1) h with ⟨i, a', ha', he⟩
      exact ⟨i, a', List.mem_cons_of_mem a ha', he⟩

theorem mapSelectedChars_selection (s : EditorState) (f : CharInfo → CharInfo) :
    (mapSelectedChars s f).selection = s.selection := rfl

theorem mapSelectedChars_keys (s : EditorState) (f : CharInfo → CharInfo) :
    (mapSelectedChars s f).blocks.map Block.key = s.blocks.map Block.key :=
  mapWithIdx_map_eq _ _ _ _ (fun _ _ => rfl)

theorem selRange_mapSelectedChars (s : EditorState) (f : CharInfo → CharInfo) :
    selRange (mapSelectedChars s f) = selRange s := by
  unfold selRange
  rw [mapSelectedChars_selection, mapSelectedChars_keys]

theorem charSelected_mapSelectedChars (s : EditorState) (f : CharInfo → CharInfo) (i j : Nat) :
    charSelected (mapSelectedChars s f) i j = charSelected s i j := by
  unfold charSelected
  rw [selRange_mapSelectedChars]

theorem charAt_mapSelectedChars (s : EditorState) (f : CharInfo → CharInfo) (i j : Nat) :
    charAt (mapSelectedChars s f) i j
      = (charAt s i j).map (fun c => if charSelected s i j then f c else c) := by
  unfold charAt mapSelectedChars
  simp only
  rw [mapWithIdx_getElem?]
  cases hb : s.blocks[i]? with
  | none => simp
  | some b =>
    simp only [Nat.zero_add, Option.map_some', Option.some_bind]
    rw [mapWithIdx_getElem?]
    cases hcj : b.chars[j]? with
    | none => simp
    | some c => simp [Nat.zero_add]

theorem selectionFullyStyled_iff (s : EditorState) (X : String) :
    selectionFullyStyled s X = true ↔ SelCovered s X := by
  unfold selectionFullyStyled SelCovered
  rw [mapWithIdx_all_eq_true]
  constructor
  · intro h i j c hsel hat
    unfold charAt at hat
    cases hb : s.blocks[i]? with
    | none => simp [hb] at hat
    | some b =>
      rw [hb, Option.some_bind] at hat
      have h1 := h i b hb
      rw [Nat.zero_add, mapWithIdx_all_eq_true] at h1
      have h2 := h1 j c hat
      rw [Nat.zero_add] at h2
      simp only [hsel, Bool.not_true, Bool.false_or, decide_eq_true_eq] at h2
      exact h2
  · intro h i b hb
    rw [Nat.zero_add, mapWithIdx_all_eq_true]
    intro j c hc
    rw [Nat.zero_add]
    by_cases hsel : charSelected s i j = true
    · have hx : X ∈ c.styles := by
        apply h i j c hsel
        unfold charAt
        rw [hb, Option.some_bind, hc]
      simp [hsel, hx]
    · simp [Bool.of_not_eq_true hsel]

theorem removeStyleChar_not_mem (X : String) (c : CharInfo) :
    X ∉ (removeStyleChar X c).styles := by
  unfold removeStyleChar
  intro h
  simp only [List.mem_filter, bne_self_eq_false] at h
  exact absurd h.2 (by simp)

theorem addStyleChar_mem (X : String) (c : CharInfo) :
    X ∈ (addStyleChar X c).styles := by
  unfold addStyleChar
  by_cases h : X ∈ c.styles <;> simp [h]

theorem applyInlineStyle_selection (s : EditorState) (X : String) :
    (applyInlineStyle s X).selection = s.selection := by
  unfold applyInlineStyle
  split
  · rfl
  · split <;> rfl

theorem applyInlineStyle_charSelected (s : EditorState) (X : String) (i j : Nat) :
    charSelected (applyInlineStyle s X) i j = charSelected s i j := by
  unfold applyInlineStyle
  split
  · rfl
  · split <;> exact charSelected_mapSelectedChars ..

theorem applyInlineStyle_charAt_unsel (s : EditorState) (X : String) (i j : Nat)
    (h : charSelected s i j = false) :
    charAt (applyInlineStyle s X) i j = charAt s i j := by
  unfold applyInlineStyle
  split
  · rfl
  · split <;>
    · rw [charAt_mapSelectedChars, h]
      cases charAt s i j <;> simp

theorem applyInlineStyle_charAt_none (s : EditorState) (X : String) (i j : Nat)
    (h : charAt s i j = none) :
    charAt (applyInlineStyle s X) i j = none := by
  unfold applyInlineStyle
  split
  · exact h
  · split <;> rw [charAt_mapSelectedChars, h] <;> rfl

theorem mapSelectedBlocks_selection (s : EditorState) (f : Block → Block) :
    (mapSelectedBlocks s f).selection = s.selection := rfl

theorem mapSelectedBlocks_keys (s : EditorState) (f : Block → Block)
    (hf : ∀ b, (f b).key = b.key) :
    (mapSelectedBlocks s f).blocks.map Block.key = s.blocks.map Block.key := by
  apply mapWithIdx_map_eq
  intro i b
  by_cases h : blockSelected s i = true
  · simp [h, hf]
  · simp [Bool.of_not_eq_true h]

theorem selRange_mapSelectedBlocks (s : EditorState) (f : Block → Block)
    (hf : ∀ b, (f b).key = b.key) :
    selRange (mapSelectedBlocks s f) = selRange s := by
  unfold selRange
  rw [mapSelectedBlocks_selection, mapSelectedBlocks_keys s f hf]

theorem blockSelected_mapSelectedBlocks (s : EditorState) (f : Block → Block)
    (hf : ∀ b, (f b).key = b.key) (i : Nat) :
    blockSelected (mapSelectedBlocks s f) i = blockSelected s i := by
  unfold blockSelected
  rw [selRange_mapSelectedBlocks s f hf]

theorem mapSelectedBlocks_getElem? (s : EditorState) (f : Block → Block) (i : Nat) :
    (mapSelectedBlocks s f).blocks[i]?
      = (s.blocks[i]?).map (fun b => if blockSelected s i then f b else b) := by
  unfold mapSelectedBlocks
  simp only
  rw [mapWithIdx_getElem?, Nat.zero_add]

theorem newBlockType_of_ne (t cur : String) (h : cur ≠ t) : newBlockType t cur = t := by
  simp [newBlockType, h]

theorem newBlockType_same_nonheading (t : String) (h : isHeadingType t = false) :
    newBlockType t t = "paragraph" := by
  simp [newBlockType, h]

theorem newBlockType_heading (t cur : String) (h : isHeadingType t = true) :
    newBlockType t cur = t := by
  simp [newBlockType, h]

theorem setBlockType_key (t : String) (b : Block) : (setBlockType t b).key = b.key := rfl

theorem setBlockType_type (t : String) (b : Block) :
    (setBlockType t b).type = newBlockType t b.type := rfl

theorem blockSelected_applyBlockStyle (s : EditorState) (t : String) (i : Nat) :
    blockSelected (applyBlockStyle s t) i = blockSelected s i :=
  blockSelected_mapSelectedBlocks s (setBlockType t) (fun _ => rfl) i

theorem applyBlockStyle_getElem_sel (s : EditorState) (t : String) (i : Nat) (b : Block)
    (hb : s.blocks[i]? = some b) (hsel : blockSelected s i = true) :
    (applyBlockStyle s t).blocks[i]? = some (setBlockType t b) := by
  rw [applyBlockStyle, mapSelectedBlocks_getElem?, hb]
  simp [hsel]

/-- C1 (amended): for every selected block, applying a non-heading type
`t` twice sends the block type to `paragraph` provided the block did not
already have type `t` (a block already of type `t` toggles to
`paragraph` and then back to `t`); applying a heading type is idempotent
— the first application already yields the heading and a second leaves
it unchanged. -/
theorem c1_applyBlockStyle_toggle :
    (∀ (s : EditorState) (t : String) (i : Nat) (b : Block),
        isHeadingType t = false → blockSelected s i = true → s.blocks[i]? = some b →
        b.type ≠ t →
        ((applyBlockStyle (applyBlockStyle s t) t).blocks[i]?).map Block.type = some "paragraph")
  ∧ (∀ (s : EditorState) (t : String) (i : Nat) (b : Block),
        isHeadingType t = true → blockSelected s i = true → s.blocks[i]? = some b →
        ((applyBlockStyle s t).blocks[i]?).map Block.type = some t
        ∧ ((applyBlockStyle (applyBlockStyle s t) t).blocks[i]?).map Block.type = some t) := by
  constructor
  · intro s t i b hh hsel hb hne
    have hsel1 : blockSelected (applyBlockStyle s t) i = true := by
      rw [blockSelected_applyBlockStyle]; exact hsel
    have e1 : (applyBlockStyle s t).blocks[i]? = some (setBlockType t b) :=
      applyBlockStyle_getElem_sel s t i b hb hsel
    have e2 : (applyBlockStyle (applyBlockStyle s t) t).blocks[i]?
        = some (setBlockType t (setBlockType t b)) :=
      applyBlockStyle_getElem_sel _ t i _ e1 hsel1
    rw [e2, Option.map_some']
    have ht1 : (setBlockType t b).type = t := by
      rw [setBlockType_type, newBlockType_of_ne t b.type hne]
    rw [Option.some_inj, setBlockType_type, ht1, newBlockType_same_nonheading t hh]
  · intro s t i b hh hsel hb
    have hsel1 : blockSelected (applyBlockStyle s t) i = true := by
      rw [blockSelected_applyBlockStyle]; exact hsel
    have e1 : (applyBlockStyle s t).blocks[i]? = some (setBlockType t b) :=
      applyBlockStyle_getElem_sel s t i b hb hsel
    have e2 : (applyBlockStyle (applyBlockStyle s t) t).blocks[i]?
        = some (setBlockType t (setBlockType t b)) :=
      applyBlockStyle_getElem_sel _ t i _ e1 hsel1
    constructor
    · rw [e1, Option.map_some', Option.some_inj, setBlockType_type,
        newBlockType_heading t b.type hh]
    · rw [e2, Option.map_some', Option.some_inj, setBlockType_type,
        newBlockType_heading t _ hh]

/-- C1 counterexample: a fully selected unordered list item block; two
successive applications of `"unordered-list-item"` end with block type
`"unordered-list-item"`, not `"paragraph"` — the universally quantified
double-application property of the claim fails when the block already
has the requested type. -/
theorem c1_counterexample :
    ((applyBlockStyle (applyBlockStyle exListItem "unordered-list-item")
        "unordered-list-item").blocks.map Block.type = ["unordered-list-item"])
    ∧ ((applyBlockStyle (applyBlockStyle exListItem "unordered-list-item")
        "unordered-list-item").blocks.map Block.type ≠ ["paragraph"]) := by
  constructor
  · decide
  · decide

/-- C1 witness: the amended statement evaluated on a concrete input (a
selected unordered list item, restyled twice as a blockquote). -/
theorem c1_witness :
    ((applyBlockStyle (applyBlockStyle exListItem "blockquote") "blockquote").blocks[0]?).map
        Block.type = some "paragraph" :=
  c1_applyBlockStyle_toggle.1 exListItem "blockquote" 0 exListBlock (by decide) (by decide)
    (by decide) (by decide)

/-- C2 (amended): toggling an inline style twice over the selection
restores the per-character coverage of that style, provided the style's
coverage over the selection was uniform to begin with (either every
selected character carried it or none did); with partial coverage the
second toggle removes the style everywhere in the selection instead. -/
theorem c2_applyInlineStyle_double_toggle (s : EditorState) (X : String)
    (h : SelCovered s X ∨ SelUncovered s X) (i j : Nat) :
    hasStyleAt (applyInlineStyle (applyInlineStyle s X) X) X i j = hasStyleAt s X i j := by
  by_cases hcol : isCollapsed s.selection = true
  · have e1 : applyInlineStyle s X = s := by
      unfold applyInlineStyle
      rw [if_pos hcol]
    rw [e1, e1]
  · have hcol' : isCollapsed s.selection = false := Bool.of_not_eq_true hcol
    by_cases hsel : charSelected s i j = true
    case neg =>
      have hsf : charSelected s i j = false := Bool.of_not_eq_true hsel
      have hsf1 : charSelected (applyInlineStyle s X) i j = false := by
        rw [applyInlineStyle_charSelected]; exact hsf
      unfold hasStyleAt
      rw [applyInlineStyle_charAt_unsel _ _ _ _ hsf1, applyInlineStyle_charAt_unsel _ _ _ _ hsf]
    case pos =>
      cases hat : charAt s i j with
      | none =>
        have e1 := applyInlineStyle_charAt_none s X i j hat
        have e2 := applyInlineStyle_charAt_none (applyInlineStyle s X) X i j e1
        unfold hasStyleAt
        rw [e2, hat]
      | some c =>
        rcases h with hCov | hUnc
        · have hx : X ∈ c.styles := hCov i j c hsel hat
          have hb1 : selectionFullyStyled s X = true := (selectionFullyStyled_iff s X).mpr hCov
          have e1 : applyInlineStyle s X = mapSelectedChars s (removeStyleChar X) := by
            unfold applyInlineStyle
            rw [if_neg (by simp [hcol']), if_pos hb1]
          have hat1 : charAt (mapSelectedChars s (removeStyleChar X)) i j
              = some (removeStyleChar X c) := by
            rw [charAt_mapSelectedChars, hat]
            simp [hsel]
          have hsel1 : charSelected (mapSelectedChars s (removeStyleChar X)) i j = true := by
            rw [charSelected_mapSelectedChars]; exact hsel
          have hb2 : selectionFullyStyled (mapSelectedChars s (removeStyleChar X)) X = false := by
            cases hb : selectionFullyStyled (mapSelectedChars s (removeStyleChar X)) X with
            | false => rfl
            | true =>
              have hmem := (selectionFullyStyled_iff _ X).mp hb i j _ hsel1 hat1
              exact absurd hmem (removeStyleChar_not_mem X c)
          have hcol1 : isCollapsed (mapSelectedChars s (removeStyleChar X)).selection = false := by
            rw [mapSelectedChars_selection]; exact hcol'
          have e2 : applyInlineStyle (mapSelectedChars s (removeStyleChar X)) X
              = mapSelectedChars (mapSelectedChars s (removeStyleChar X)) (addStyleChar X) := by
            unfold applyInlineStyle
            rw [if_neg (by simp [hcol1]), if_neg (by simp [hb2])]
          have hat2 : charAt
              (mapSelectedChars (mapSelectedChars s (removeStyleChar X)) (addStyleChar X)) i j
              = some (addStyleChar X (removeStyleChar X c)) := by
            rw [charAt_mapSelectedChars, hat1]
            simp [hsel1]
          have m1 : X ∈ (addStyleChar X (removeStyleChar X c)).styles := addStyleChar_mem ..
          unfold hasStyleAt
          rw [e1, e2, hat2, hat]
          simp [m1, hx]
        · have hx : X ∉ c.styles := hUnc i j c hsel hat
          have hb1 : selectionFullyStyled s X = false := by
            cases hb : selectionFullyStyled s X with
            | false => rfl
            | true => exact absurd ((selectionFullyStyled_iff s X).mp hb i j c hsel hat) hx
          have e1 : applyInlineStyle s X = mapSelectedChars s (addStyleChar X) := by
            unfold applyInlineStyle
            rw [if_neg (by simp [hcol']), if_neg (by simp [hb1])]
          have hCov1 : SelCovered (mapSelectedChars s (addStyleChar X)) X := by
            intro i2 j2 c2 hsel2 hat2
            rw [charSelected_mapSelectedChars] at hsel2
            rw [charAt_mapSelectedChars] at hat2
            cases hat0 : charAt s i2 j2 with
            | none => rw [hat0] at hat2; simp at hat2
            | some c0 =>
              rw [hat0] at hat2
              simp only [hsel2, if_true, Option.map_some', Option.some_inj] at hat2
              rw [← hat2]
              exact addStyleChar_mem X c0
          have hb2 : selectionFullyStyled (mapSelectedChars s (addStyleChar X)) X = true :=
            (selectionFullyStyled_iff _ X).mpr hCov1
          have hcol1 : isCollapsed (mapSelectedChars s (addStyleChar X)).selection = false := by
            rw [mapSelectedChars_selection]; exact hcol'
          have e2 : applyInlineStyle (mapSelectedChars s (addStyleChar X)) X
              = mapSelectedChars (mapSelectedChars s (addStyleChar X)) (removeStyleChar X) := by
            unfold applyInlineStyle
            rw [if_neg (by simp [hcol1]), if_pos hb2]
          have hsel1 : charSelected (mapSelectedChars s (addStyleChar X)) i j = true := by
            rw [charSelected_mapSelectedChars]; exact hsel
          have hat1 : charAt (mapSelectedChars s (addStyleChar X)) i j
              = some (addStyleChar X c) := by
            rw [charAt_mapSelectedChars, hat]; simp [hsel]
          have hat2 : charAt
              (mapSelectedChars (mapSelectedChars s (addStyleChar X)) (removeStyleChar X)) i j
              = some (removeStyleChar X (addStyleChar X c)) := by
            rw [charAt_mapSelectedChars, hat1]
            simp [hsel1]
          have m1 : X ∉ (removeStyleChar X (addStyleChar X c)).styles :=
            removeStyleChar_not_mem X (addStyleChar X c)
          unfold hasStyleAt
          rw [e1, e2, hat2, hat]
          simp [m1, hx]

/-- C2 counterexample: a fully selected block "ab" in which only the
first character is bold; toggling BOLD twice ends with the first
character unbold — the double toggle does not restore the original
coverage when the selection is only partially styled. -/
theorem c2_counterexample :
    hasStyleAt (applyInlineStyle (applyInlineStyle exPartialBold "BOLD") "BOLD") "BOLD" 0 0
      ≠ hasStyleAt exPartialBold "BOLD" 0 0 := by
  decide

/-- C2 witness: the amended statement evaluated on a uniformly bold
selection. -/
theorem c2_witness :
    hasStyleAt (applyInlineStyle (applyInlineStyle exAllBold "BOLD") "BOLD") "BOLD" 0 0
      = hasStyleAt exAllBold "BOLD" 0 0 :=
  c2_applyInlineStyle_double_toggle exAllBold "BOLD"
    (Or.inl ((selectionFullyStyled_iff exAllBold "BOLD").mp (by decide))) 0 0

theorem adjustBlockDepth_depth_le (d : IndentDirection) (b : Block)
    (h : b.depth ≤ maxIntend) : (adjustBlockDepth d b).depth ≤ maxIntend := by
  unfold adjustBlockDepth
  by_cases hl : isListType b.type = true
  · rw [if_pos hl]
    cases d
    · by_cases hd : b.depth < maxIntend
      · rw [if_pos hd]
        show b.depth + 1 ≤ maxIntend
        omega
      · rw [if_neg hd]
        exact h
    · by_cases hd : 0 < b.depth
      · rw [if_pos hd]
        show b.depth - 1 ≤ maxIntend
        omega
      · rw [if_neg hd]
        exact h
  · rw [if_neg hl]
    exact h

/-- C3: starting from a state whose blocks respect the depth invariant,
any sequence of indent adjustments keeps every block depth within
`[0, maxIntend]` (depths are naturals, so 0 is a hard lower bound); an
increase at the maximum depth, a decrease at depth 0, and any
adjustment of a non-list block are no-ops. -/
theorem c3_adjustIndent_depth :
    (∀ (s : EditorState) (ds : List IndentDirection),
        (∀ b ∈ s.blocks, b.depth ≤ maxIntend) →
        ∀ b ∈ (ds.foldl adjustIndent s).blocks, b.depth ≤ maxIntend)
  ∧ (∀ (d : IndentDirection) (b : Block), isListType b.type = false → adjustBlockDepth d b = b)
  ∧ (∀ b : Block, b.depth = maxIntend → adjustBlockDepth IndentDirection.increase b = b)
  ∧ (∀ b : Block, b.depth = 0 → adjustBlockDepth IndentDirection.decrease b = b) := by
  refine ⟨?_, ?_, ?_, ?_⟩
  · intro s ds
    induction ds generalizing s with
    | nil => intro h; simpa using h
    | cons d ds ih =>
      intro h
      rw [List.foldl_cons]
      apply ih
      intro b hb
      unfold adjustIndent mapSelectedBlocks at hb
      simp only at hb
      rcases mapWithIdx_mem _ _ _ _ hb with ⟨i, a, ha, he⟩
      subst he
      by_cases hsel : blockSelected s i = true
      · simp only [hsel, if_true]
        exact adjustBlockDepth_depth_le d a (h a ha)
      · simp only [Bool.of_not_eq_true hsel, Bool.false_eq_true, if_false]
        exact h a ha
  · intro d b h
    unfold adjustBlockDepth
    rw [if_neg (by simp [h])]
  · intro b h
    unfold adjustBlockDepth
    by_cases hl : isListType b.type = true
    · rw [if_pos hl]
      show (if b.depth < maxIntend then { b with depth := b.depth + 1 } else b) = b
      rw [if_neg (by omega)]
    · rw [if_neg hl]
  · intro b h
    unfold adjustBlockDepth
    by_cases hl : isListType b.type = true
    · rw [if_pos hl]
      show (if 0 < b.depth then { b with depth := b.depth - 1 } else b) = b
      rw [if_neg (by omega)]
    · rw [if_neg hl]

/-- C3 witness: the depth invariant applied to a depth-two list item
after two decreases, instantiated at the resulting block. -/
theorem c3_witness : exDepthZeroBlock.depth ≤ maxIntend :=
  c3_adjustIndent_depth.1 exDepthTwo [IndentDirection.decrease, IndentDirection.decrease]
    (by decide) exDepthZeroBlock (by decide)

/-- C4: adding a link with an empty url string is a no-op — the state
is returned unchanged and no link entity is created. -/
theorem c4_addLink_empty_noop (s : EditorState) : addLink s "" = s := by
  unfold addLink
  simp

theorem getCurrentInlineStyle_mem (s : EditorState) (X : String) (hX : X ∈ inlineStyleNames) :
    X ∈ getCurrentInlineStyle s ↔ SelCovered s X := by
  unfold getCurrentInlineStyle
  rw [List.mem_filter]
  constructor
  · intro h
    exact (selectionFullyStyled_iff s X).mp h.2
  · intro h
    exact ⟨hX, (selectionFullyStyled_iff s X).mpr h⟩

theorem deriveStyleFlags_bold (s : EditorState) :
    (deriveStyleFlags s).isBoldActive = decide ("BOLD" ∈ getCurrentInlineStyle s) := rfl

theorem deriveStyleFlags_italic (s : EditorState) :
    (deriveStyleFlags s).isItalicActive = decide ("ITALIC" ∈ getCurrentInlineStyle s) := rfl

theorem deriveStyleFlags_underline (s : EditorState) :
    (deriveStyleFlags s).isUnderlineActive = decide ("UNDERLINE" ∈ getCurrentInlineStyle s) := rfl

theorem deriveStyleFlags_strike (s : EditorState) :
    (deriveStyleFlags s).isStrikeThroughActive
      = decide ("STRIKETHROUGH" ∈ getCurrentInlineStyle s) := rfl

theorem deriveStyleFlags_unordered (s : EditorState) :
    (deriveStyleFlags s).isUnorderedListActive
      = (anchorBlockType s == "unordered-list-item") := rfl

theorem deriveStyleFlags_ordered (s : EditorState) :
    (deriveStyleFlags s).isOrderedListActive = (anchorBlockType s == "ordered-list-item") := rfl

theorem deriveStyleFlags_blockquote (s : EditorState) :
    (deriveStyleFlags s).isBlockquoteActive = (anchorBlockType s == "blockquote") := rfl

theorem deriveStyleFlags_codeblock (s : EditorState) :
    (deriveStyleFlags s).isCodeBlockActive = (anchorBlockType s == "code-block") := rfl

theorem deriveStyleFlags_selectedHeading (s : EditorState) :
    (deriveStyleFlags s).selectedHeading
      = (if anchorBlockType s == "unstyled" then "paragraph" else anchorBlockType s) := rfl

theorem anchorBlockType_of_found (s : EditorState) (b : Block)
    (hb : getBlockForKey s s.selection.anchorKey = some b) :
    anchorBlockType s = b.type := by
  unfold anchorBlockType
  rw [hb]

/-- C5: the derived active-style query reports an inline style as
active exactly when the style covers every character of the current
selection, and the reported block type (the four block flags and the
heading key, `"unstyled"` shown as `"paragraph"`) is that of the block
containing the selection's anchor point. -/
theorem c5_queryActiveStyles (s : EditorState) :
    ((deriveStyleFlags s).isBoldActive = true ↔ SelCovered s "BOLD")
  ∧ ((deriveStyleFlags s).isItalicActive = true ↔ SelCovered s "ITALIC")
  ∧ ((deriveStyleFlags s).isUnderlineActive = true ↔ SelCovered s "UNDERLINE")
  ∧ ((deriveStyleFlags s).isStrikeThroughActive = true ↔ SelCovered s "STRIKETHROUGH")
  ∧ (∀ b, getBlockForKey s s.selection.anchorKey = some b →
        (deriveStyleFlags s).selectedHeading
            = (if b.type = "unstyled" then "paragraph" else b.type)
      ∧ (deriveStyleFlags s).isUnorderedListActive = (b.type == "unordered-list-item")
      ∧ (deriveStyleFlags s).isOrderedListActive = (b.type == "ordered-list-item")
      ∧ (deriveStyleFlags s).isBlockquoteActive = (b.type == "blockquote")
      ∧ (deriveStyleFlags s).isCodeBlockActive = (b.type == "code-block")) := by
  refine ⟨?_, ?_, ?_, ?_, ?_⟩
  · rw [deriveStyleFlags_bold, decide_eq_true_eq]
    exact getCurrentInlineStyle_mem s "BOLD" (by decide)
  · rw [deriveStyleFlags_italic, decide_eq_true_eq]
    exact getCurrentInlineStyle_mem s "ITALIC" (by decide)
  · rw [deriveStyleFlags_underline, decide_eq_true_eq]
    exact getCurrentInlineStyle_mem s "UNDERLINE" (by decide)
  · rw [deriveStyleFlags_strike, decide_eq_true_eq]
    exact getCurrentInlineStyle_mem s "STRIKETHROUGH" (by decide)
  · intro b hb
    have hT := anchorBlockType_of_found s b hb
    refine ⟨?_, ?_, ?_, ?_, ?_⟩
    · rw [deriveStyleFlags_selectedHeading, hT]
      by_cases h : b.type = "unstyled" <;> simp [h]
    · rw [deriveStyleFlags_unordered, hT]
    · rw [deriveStyleFlags_ordered, hT]
    · rw [deriveStyleFlags_blockquote, hT]
    · rw [deriveStyleFlags_codeblock, hT]

/-- C5 witness: the block-type part evaluated on a selected unordered
list item. -/
theorem c5_witness :
    (deriveStyleFlags exListItem).selectedHeading
      = (if exListBlock.type = "unstyled" then "paragraph" else exListBlock.type) :=
  ((c5_queryActiveStyles exListItem).2.2.2.2 exListBlock (by decide)).1

/-- C6: a raw `"backspace"` key command is answered `not-handled` with
no state installed, and the answer does not consult the rich-text
utility's command handling (it is the same for every delegate). -/
theorem c6_handleKeyCommand_backspace
    (rich rich2 : EditorState → String → Option EditorState) (s : EditorState) :
    handleKeyCommand rich "backspace" s = (DraftHandleValue.notHandled, none)
    ∧ handleKeyCommand rich "backspace" s = handleKeyCommand rich2 "backspace" s := by
  constructor <;> rfl

/-- C7: with the shift modifier held, the return handler installs the
state with a soft line break inserted in the anchor block and reports
the event handled — the break adds one character to the anchor block
and creates no new block (keys and block count are unchanged); without
the modifier the handler reports the event not handled and installs
nothing. -/
theorem c7_handleReturn (e : ReturnKeyEvent) (s : EditorState) :
    (e.shiftKey = true →
       handleReturn e s = (DraftHandleValue.handled, some (insertSoftNewline s))
     ∧ (insertSoftNewline s).blocks.map Block.key = s.blocks.map Block.key
     ∧ (insertSoftNewline s).blocks.length = s.blocks.length
     ∧ (∀ b ∈ s.blocks, b.key = s.selection.anchorKey →
          ∃ b2 ∈ (insertSoftNewline s).blocks, b2.key = b.key
            ∧ b2.chars.length = b.chars.length + 1 ∧ softBreakChar ∈ b2.chars))
  ∧ (e.shiftKey = false → handleReturn e s = (DraftHandleValue.notHandled, none)) := by
  constructor
  · intro hsh
    refine ⟨?_, ?_, ?_, ?_⟩
    · unfold handleReturn
      rw [if_pos hsh]
    · unfold insertSoftNewline
      simp only [List.map_map]
      apply List.map_congr_left
      intro b _
      show (if (b.key == s.selection.anchorKey) = true then
          { b with chars := b.chars.take s.selection.anchorOffset
              ++ softBreakChar :: b.chars.drop s.selection.anchorOffset }
          else b).key = b.key
      split <;> rfl
    · unfold insertSoftNewline
      simp
    · intro b hb hkey
      refine ⟨(if b.key == s.selection.anchorKey then
          { b with chars := b.chars.take s.selection.anchorOffset
              ++ softBreakChar :: b.chars.drop s.selection.anchorOffset }
          else b), ?_, ?_⟩
      · unfold insertSoftNewline
        simp only [List.mem_map]
        exact ⟨b, hb, rfl⟩
      · rw [if_pos (by simp [hkey])]
        refine ⟨rfl, ?_, ?_⟩
        · simp only [List.length_append, List.length_cons, List.length_take, List.length_drop]
          omega
        · simp
  · intro hsh
    unfold handleReturn
    rw [if_neg (by simp [hsh])]

/-- C7 witness: the shift-held branch evaluated on a concrete state. -/
theorem c7_witness :
    handleReturn { shiftKey := true } exListItem
      = (DraftHandleValue.handled, some (insertSoftNewline exListItem)) :=
  ((c7_handleReturn { shiftKey := true } exListItem).1 rfl).1

/-- C8: the content-update effect invokes the host callback exactly once
per editor state change, with the markdown export when the selected
content type is markdown and the html export when it is html. -/
theorem c8_contentUpdateEffect (expMd expHtml : EditorState → String)
    (ct : ContentType) (s : EditorState) :
    (contentUpdateEffect expMd expHtml ct s).length = 1
  ∧ contentUpdateEffect expMd expHtml ContentType.markdown s = [expMd s]
  ∧ contentUpdateEffect expMd expHtml ContentType.html s = [expHtml s] := by
  refine ⟨rfl, rfl, rfl⟩

/-- C9: the initial editor state is the markdown import exactly when
the initial content is present, non-empty and the content type is
markdown, the html import exactly when it is present, non-empty and the
content type is html, and the empty state otherwise — an empty initial
content string is never passed to an importer. -/
theorem c9_initialEditorState (fromMd fromHtml : String → EditorState)
    (createEmpty : EditorState) (ic : Option String) (ct : ContentType) :
    (∀ c, ic = some c → c ≠ "" → ct = ContentType.markdown →
       initialEditorState fromMd fromHtml createEmpty ic ct = fromMd c)
  ∧ (∀ c, ic = some c → c ≠ "" → ct = ContentType.html →
       initialEditorState fromMd fromHtml createEmpty ic ct = fromHtml c)
  ∧ (ic = none → initialEditorState fromMd fromHtml createEmpty ic ct = createEmpty)
  ∧ (ic = some "" → initialEditorState fromMd fromHtml createEmpty ic ct = createEmpty) := by
  refine ⟨?_, ?_, ?_, ?_⟩
  · intro c hic hc hct
    subst hic; subst hct
    unfold initialEditorState
    rw [if_pos (by simp [strTruthy, hc])]
    simp
  · intro c hic hc hct
    subst hic; subst hct
    unfold initialEditorState
    rw [if_neg (by simp [strTruthy]), if_pos (by simp [strTruthy, hc])]
    simp
  · intro hic
    subst hic
    unfold initialEditorState
    rw [if_neg (by simp [strTruthy]), if_neg (by simp [strTruthy])]
  · intro hic
    subst hic
    unfold initialEditorState
    rw [if_neg (by simp [strTruthy]), if_neg (by simp [strTruthy])]

/-- C9 witness: non-empty markdown content is routed through the
markdown importer (stub importers instantiate the abstract ones). -/
theorem c9_witness :
    initialEditorState stubImportMd stubImportHtml emptyEditorState (some "x")
        ContentType.markdown = stubImportMd "x" :=
  (c9_initialEditorState stubImportMd stubImportHtml emptyEditorState (some "x")
    ContentType.markdown).1 "x" rfl (by decide) rfl

theorem beq_both_of_ne (T a b : String) (hab : a ≠ b) :
    ¬((T == a) = true ∧ (T == b) = true) := by
  rintro ⟨h1, h2⟩
  rw [beq_iff_eq] at h1 h2
  subst h1
  exact hab h2

/-- C10: the four block-type activity flags are mutually exclusive (no
two are simultaneously true), and the heading selection equals the
anchor block's type with `"unstyled"` mapped to `"paragraph"`. -/
theorem c10_blockTypeFlags (s : EditorState) :
    (¬((deriveStyleFlags s).isUnorderedListActive = true
        ∧ (deriveStyleFlags s).isOrderedListActive = true))
  ∧ (¬((deriveStyleFlags s).isUnorderedListActive = true
        ∧ (deriveStyleFlags s).isBlockquoteActive = true))
  ∧ (¬((deriveStyleFlags s).isUnorderedListActive = true
        ∧ (deriveStyleFlags s).isCodeBlockActive = true))
  ∧ (¬((deriveStyleFlags s).isOrderedListActive = true
        ∧ (deriveStyleFlags s).isBlockquoteActive = true))
  ∧ (¬((deriveStyleFlags s).isOrderedListActive = true
        ∧ (deriveStyleFlags s).isCodeBlockActive = true))
  ∧ (¬((deriveStyleFlags s).isBlockquoteActive = true
        ∧ (deriveStyleFlags s).isCodeBlockActive = true))
  ∧ (∀ b, getBlockForKey s s.selection.anchorKey = some b →
      (deriveStyleFlags s).selectedHeading
        = (if b.type = "unstyled" then "paragraph" else b.type)) := by
  rw [deriveStyleFlags_unordered, deriveStyleFlags_ordered, deriveStyleFlags_blockquote,
    deriveStyleFlags_codeblock]
  refine ⟨beq_both_of_ne _ _ _ (by decide), beq_both_of_ne _ _ _ (by decide),
    beq_both_of_ne _ _ _ (by decide), beq_both_of_ne _ _ _ (by decide),
    beq_both_of_ne _ _ _ (by decide), beq_both_of_ne _ _ _ (by decide), ?_⟩
  intro b hb
  rw [deriveStyleFlags_selectedHeading, anchorBlockType_of_found s b hb]
  by_cases h : b.type = "unstyled" <;> simp [h]

/-- C10 witness: the heading clause evaluated on a selected unordered
list item. -/
theorem c10_witness :
    (deriveStyleFlags exListItem).selectedHeading
      = (if exListBlock.type = "unstyled" then "paragraph" else exListBlock.type) :=
  (c10_blockTypeFlags exListItem).2.2.2.2.2.2 exListBlock (by decide)

end Wysiwyg
